import Mathlib

/-!
Verification of the lottery Draw Ledger, Statistics and Prediction engines.

A shallow embedding, in Lean 4, of the core of the `lotto` repository:

* `database.py`   — the SQLite-backed Ledger (`add_result`, `import_from_csv`,
  `get_latest_draw_number`), modeled as pure state passing over a list of rows
  (the table in rowid/insertion order).
* `predictor.py`  — the statistics engine (`frequency_analysis`,
  `get_hot_numbers`, `get_cold_numbers`, `get_overdue_numbers`), the ten
  prediction strategies, the variety seeding policy and
  `generate_predictions` / `get_statistics`.
* `app.py` / `auto_updater.py` — the two reconciliation paths
  (`import_missing`, `check_and_import_all_missing`), parameterized by the
  Source Feed responses.

Modeling conventions:

* Python `dict` / `collections.Counter` values are association lists in
  insertion (first-occurrence) order, which is the iteration order Python
  guarantees.
* Python `sorted` (Timsort, stable) is modeled by a stable insertion sort
  `pySort`; any two stable sorts agree extensionally, so this is faithful.
  `sorted(..., reverse=True)` reverses the comparison but keeps ties in
  original order, which is what `pySort` with the flipped strict comparison
  produces.
* `random` is an explicit pseudo-random source: a `RNG` structure whose state
  is threaded through the code. Python's Mersenne Twister is one instance;
  theorems quantify over all instances, and concrete counterexamples use an
  instance whose outputs the real generator can produce (see `RNGValid`).
* Exceptions that can actually fire (e.g. `max()` / division on empty data)
  are modeled with `Option`: `none` means the Python code raises.
* SQLite `DATE` values are modeled as strings compared bytewise (the ISO
  form the code stores); `ORDER BY draw_date DESC` keeps ties in rowid
  (insertion) order, matching a stable scan of the `idx_draw_date` index.
* Floating point only occurs in three places of `predictor.py`
  (`predict_statistical_average`, `predict_sum_based`,
  `predict_spread_distribution`); there it is modeled by exact integer
  arithmetic that agrees with the double computations on the value ranges
  the program produces (see the comments at those definitions).
-/

namespace Lotto

/-! ## Python primitives -/

/-- Python `int(s)` on a string: optional sign followed by digits
(whitespace stripping and underscore separators are not modeled; no input
in this development uses them). `none` models `ValueError`. -/
def pyInt? (s : String) : Option Int :=
  let digits : List Char → Option Nat := fun l =>
    if l ≠ [] ∧ l.all Char.isDigit then
      some (l.foldl (fun a c => a * 10 + (c.toNat - 48)) 0)
    else none
  match s.data with
  | '-' :: rest => (digits rest).map (fun n => -(n : Int))
  | '+' :: rest => (digits rest).map (fun n => (n : Int))
  | l => (digits l).map (fun n => (n : Int))

/-- Stable insertion used by `pySort`: `x` is placed after every element it is
not strictly less than (per `lt`), so elements comparing equal keep their
original relative order — exactly the stability contract of Python `sorted`. -/
def insEq (lt : α → α → Bool) (x : α) : List α → List α
  | [] => [x]
  | y :: ys => if lt x y then x :: y :: ys else y :: insEq lt x ys

/-- Python `sorted(l, ...)` where `lt a b` means "`a` must come strictly
before `b`" under the requested key/reverse combination. Stable. -/
def pySort (lt : α → α → Bool) (l : List α) : List α :=
  l.foldl (fun acc x => insEq lt x acc) []

/-- Python `sorted` on integers (ascending). -/
def pySortInt (l : List Int) : List Int :=
  pySort (fun a b => decide (a < b)) l

/-- First occurrences, in order, of the elements of `l` — the key order of a
Python `dict` / `Counter` built by scanning `l`. -/
def firstOccsAcc [DecidableEq α] (seen : List α) : List α → List α
  | [] => []
  | x :: xs => if x ∈ seen then firstOccsAcc seen xs
               else x :: firstOccsAcc (x :: seen) xs

def firstOccs [DecidableEq α] (l : List α) : List α := firstOccsAcc [] l

/-- Number of occurrences of `x` in `l` (as an `Int`, the type Python counts
with). -/
def countOcc [DecidableEq α] (l : List α) (x : α) : Int :=
  ((l.filter (fun m => decide (m = x))).length : Int)

/-- `dict(Counter(l))`: association list `key ↦ count` in first-occurrence
order. -/
def freqList [DecidableEq α] (l : List α) : List (α × Int) :=
  (firstOccs l).map (fun n => (n, countOcc l n))

/-- Python `max(items, key=lambda x: x[1])` on an association list: the first
entry with maximal second component; `none` models the `ValueError` raised on
an empty sequence. -/
def maxBySnd : List (α × Int) → Option (α × Int)
  | [] => none
  | x :: xs =>
    match maxBySnd xs with
    | none => some x
    | some m => if m.2 > x.2 then some m else some x

/-- Python `min(items, key=lambda x: x[1])`: first entry with minimal second
component; `none` models `ValueError` on empty input. -/
def minBySnd : List (α × Int) → Option (α × Int)
  | [] => none
  | x :: xs =>
    match minBySnd xs with
    | none => some x
    | some m => if m.2 < x.2 then some m else some x

/-- Lexicographic comparison of character lists by codepoint — the order
SQLite's `memcmp` induces on the stored (ASCII) dates. -/
def listCharLt : List Char → List Char → Bool
  | [], [] => false
  | [], _ :: _ => true
  | _ :: _, [] => false
  | a :: as, b :: bs =>
    if a.toNat < b.toNat then true
    else if b.toNat < a.toNat then false
    else listCharLt as bs

/-- `a < b` on strings, bytewise. -/
def strLt (a b : String) : Bool := listCharLt a.data b.data

/-- `(b - a).toNat` consecutive integers starting at `a`. -/
def intRangeAux (a : Int) : Nat → List Int
  | 0 => []
  | n + 1 => a :: intRangeAux (a + 1) n

/-- Python `list(range(a, b))` on integers. -/
def intRange (a b : Int) : List Int :=
  intRangeAux a (b - a).toNat

/-! ## The Ledger (`database.py`) -/

/-- One row of the `lottery_results` table, in rowid (insertion) order inside
a `List Row`. `nums` holds `number1 .. number6` (always six entries for rows
produced by the insert paths). -/
structure Row where
  draw_number : Int
  draw_date : String
  nums : List Int
  strong : Int
deriving DecidableEq, Repr

/-- Split a character list at every occurrence of `c` (the semantics of
`str.split("/")` on the relevant inputs). -/
def splitOnChar (c : Char) : List Char → List (List Char)
  | [] => [[]]
  | x :: xs =>
    match splitOnChar c xs with
    | [] => if x = c then [[], []] else [[x]]
    | h :: t => if x = c then [] :: h :: t else (x :: h) :: t

/-- `LotteryDatabase._parse_date`: convert `DD/MM/YYYY` to `YYYY-MM-DD`;
unparseable strings are returned unchanged. Models `datetime.strptime`
validation (digit fields, month 1–12, day valid for the month, including
leap years). -/
def parse_date (date_str : String) : String :=
  let isDigits : List Char → Bool := fun l => !l.isEmpty && l.all Char.isDigit
  let toN : List Char → Nat := fun l => l.foldl (fun a c => a * 10 + (c.toNat - 48)) 0
  let pad : Nat → Nat → String := fun w n =>
    let s := toString n
    String.mk (List.replicate (w - s.length) '0') ++ s
  match splitOnChar '/' date_str.data with
  | [d, m, y] =>
    if isDigits d && isDigits m && isDigits y
        && d.length ≤ 2 && m.length ≤ 2 && y.length ≤ 4 then
      let dn := toN d; let mn := toN m; let yn := toN y
      let leap := (yn % 4 == 0 && yn % 100 != 0) || yn % 400 == 0
      let dim : Nat := if mn == 2 then (if leap then 29 else 28)
                       else if mn == 4 || mn == 6 || mn == 9 || mn == 11 then 30
                       else 31
      if 1 ≤ mn && mn ≤ 12 && 1 ≤ dn && dn ≤ dim then
        pad 4 yn ++ "-" ++ pad 2 mn ++ "-" ++ pad 2 dn
      else date_str
    else date_str
  | _ => date_str

/-- The date actually stored by `add_result`: parsed only when the input
contains a `/`. -/
def normDate (draw_date : String) : String :=
  if ('/' ∈ draw_date.data) then parse_date draw_date else draw_date

/-- `LotteryDatabase.add_result`. Validation order as in the source: length,
main-number range, strong range; then the `INSERT` whose `UNIQUE` constraint
on `draw_number` makes a duplicate id raise `IntegrityError`, caught by the
blanket `except` — every failure returns `False` with the table unchanged.
Note the source checks only `1 <= n <= 37` for each number: there is no
pairwise-distinctness check. -/
def add_result (db : List Row) (draw_number : Int) (draw_date : String)
    (numbers : List Int) (strong_number : Int) : Bool × List Row :=
  if numbers.length ≠ 6 then (false, db)
  else if ¬ numbers.all (fun n => decide (1 ≤ n ∧ n ≤ 37)) then (false, db)
  else if ¬ (1 ≤ strong_number ∧ strong_number ≤ 7) then (false, db)
  else if db.any (fun r => r.draw_number == draw_number) then (false, db)
  else (true, db ++ [⟨draw_number, normDate draw_date, numbers, strong_number⟩])

/-- One CSV data row parsed as in `import_from_csv`: `row[0]` id, `row[1]`
date (always passed through `_parse_date`), `row[2..7]` the six numbers,
`row[8]` the strong number. `none` models the `ValueError`/`IndexError`
branch that counts the row as skipped. -/
def parseRow (row : List String) : Option (Int × String × List Int × Int) := do
  let s0 ← row.get? 0
  let dn ← pyInt? s0
  let dd ← row.get? 1
  let ns ← (List.range 6).mapM (fun i => (row.get? (2 + i)).bind pyInt?)
  let st ← (row.get? 8).bind pyInt?
  return (dn, parse_date dd, ns, st)

/-- `LotteryDatabase.import_from_csv`, modeled from the already decoded and
header-stripped CSV rows. Each row: parse, then `INSERT OR IGNORE` — an
existing `draw_number` leaves the table unchanged and counts as skipped.
Returns `(imported_count, skipped_count, table)`. There is no value
validation on this path. -/
def csvStep (acc : Nat × Nat × List Row) (row : List String) :
    Nat × Nat × List Row :=
  let (imported, skipped, db) := acc
  match parseRow row with
  | none => (imported, skipped + 1, db)
  | some (dn, dd, ns, st) =>
    if db.any (fun r => r.draw_number == dn) then (imported, skipped + 1, db)
    else (imported + 1, skipped, db ++ [⟨dn, dd, ns, st⟩])

def import_from_csv (db : List Row) (rows : List (List String)) :
    Nat × Nat × List Row :=
  rows.foldl csvStep (0, 0, db)

/-- The row produced by `SELECT ... ORDER BY draw_date DESC LIMIT 1`: the
first row, in insertion order, whose `draw_date` is maximal (bytewise string
comparison, as SQLite compares the stored TEXT dates). -/
def latestRow : List Row → Option Row
  | [] => none
  | r :: rs =>
    match latestRow rs with
    | none => some r
    | some m => if strLt r.draw_date m.draw_date then some m else some r

/-- `LotteryDatabase.get_latest_draw_number`: note the source orders by
`draw_date`, not by `draw_number`. -/
def get_latest_draw_number (db : List Row) : Option Int :=
  (latestRow db).map (fun r => r.draw_number)

/-! ## The eligible view and the statistics engine (`predictor.py`) -/

/-- `CURRENT_SYSTEM_FILTER AND DATE_FILTER`: current game shape
(`strong_number <= 7`, all six numbers `<= 37`) and `draw_date` within the
rolling window. `cutoff` stands for the string `date('now', '-4 years')`
computes; the comparison is the bytewise one SQLite performs on the stored
TEXT dates. -/
def eligibleRow (cutoff : String) (r : Row) : Bool :=
  decide (r.strong ≤ 7) && r.nums.all (fun n => decide (n ≤ 37))
    && !(strLt r.draw_date cutoff)

/-- The rows the predictor queries: filtered and then
`ORDER BY draw_date DESC` (stable — ties stay in rowid order). -/
def eligibleView (cutoff : String) (db : List Row) : List Row :=
  pySort (fun a b => strLt b.draw_date a.draw_date) (db.filter (eligibleRow cutoff))

/-- The `LIMIT ?` clause: Python passes `limit` only when truthy
(`if limit:`), so `none` and `some 0` both mean "no limit". -/
def applyLimit (V : List Row) : Option Nat → List Row
  | none => V
  | some l => if l = 0 then V else V.take l

/-- `get_all_numbers`: the six main numbers of each draw in the (possibly
limited) eligible view, newest first. -/
def get_all_numbers (V : List Row) (limit : Option Nat) : List (List Int) :=
  (applyLimit V limit).map (fun r => r.nums)

/-- `get_all_strong_numbers`. -/
def get_all_strong_numbers (V : List Row) (limit : Option Nat) : List Int :=
  (applyLimit V limit).map (fun r => r.strong)

/-- `frequency_analysis`: `dict(Counter(flat_numbers))` over the flattened
window. -/
def frequency_analysis (V : List Row) (limit : Option Nat) : List (Int × Int) :=
  freqList (get_all_numbers V limit).flatten

/-- `strong_number_frequency`. -/
def strong_number_frequency (V : List Row) (limit : Option Nat) : List (Int × Int) :=
  freqList (get_all_strong_numbers V limit)

/-- `get_hot_numbers`: sort the frequency map by count, descending and
stable, take `top_n` keys. Ties therefore stay in first-occurrence order. -/
def get_hot_numbers (V : List Row) (top_n recent_draws : Nat) : List Int :=
  let freq := frequency_analysis V (some recent_draws)
  ((pySort (fun a b => decide (b.2 < a.2)) freq).take top_n).map (fun p => p.1)

/-- `get_cold_numbers`: seed all of 1..37 with count 0, overlay the window
counts (`dict.update` keeps the position of existing keys and appends new
ones), sort ascending stable, take `top_n` keys. -/
def get_cold_numbers (V : List Row) (top_n recent_draws : Nat) : List Int :=
  let freq := frequency_analysis V (some recent_draws)
  let base := (List.range 37).map (fun i => ((i + 1 : Int), (0 : Int)))
  let all_numbers :=
    base.map (fun kv => match freq.lookup kv.1 with
                        | some c => (kv.1, c)
                        | none => kv)
      ++ freq.filter (fun kv => decide (¬ (1 ≤ kv.1 ∧ kv.1 ≤ 37)))
  ((pySort (fun a b => decide (a.2 < b.2)) all_numbers).take top_n).map (fun p => p.1)

/-- The `last_appearance` table of `get_overdue_numbers` after the scan:
start from `{1..37 ↦ 0}`, walk the eligible draws newest-to-oldest and set a
number's entry to the draw index the first time it is seen — but only while
the entry is still `0`, so an appearance at index 0 never registers (the
sentinel bug). -/
def lastAppearance (draws : List (List Int)) : List (Int × Int) :=
  let base := (List.range 37).map (fun i => ((i + 1 : Int), (0 : Int)))
  let scanned :=
    (draws.enum.foldl
      (fun table p =>
        p.2.foldl
          (fun t num =>
            t.map (fun kv =>
              if kv.1 = num ∧ kv.2 = 0 then (kv.1, (p.1 : Int)) else kv))
          table)
      base)
  scanned.map (fun kv => if kv.2 = 0 then (kv.1, (draws.length : Int)) else kv)

/-- `get_overdue_numbers`: the `last_appearance` table sorted by value,
descending and stable, truncated to `top_n` (returns pairs). -/
def get_overdue_numbers (V : List Row) (top_n : Nat) : List (Int × Int) :=
  (pySort (fun a b => decide (b.2 < a.2)) (lastAppearance (V.map (fun r => r.nums)))).take top_n

/-! ## The pseudo-random source

The Python code draws all randomness from the module-global `random`
generator. We make the generator explicit: a state type `ρ`, a reseeding
function and the four primitives the strategies call, each threading the
state. Python's seeded Mersenne Twister is one instance; all theorems hold
for every instance, and counterexamples use an instance whose outputs the
real generator produces with positive probability (`RNGValid`). -/

structure RNG (ρ : Type) where
  /-- `random.seed(n)`. -/
  seed : Nat → ρ
  /-- `random.randint(a, b)` — both ends inclusive. -/
  randint : ρ → Int → Int → Int × ρ
  /-- `random.sample(population, k)`. -/
  sample : ρ → List Int → Nat → List Int × ρ
  /-- `random.choice(seq)`. -/
  choice : ρ → List Int → Int × ρ
  /-- `random.shuffle(seq)` (returning the permuted list). -/
  shuffle : ρ → List Int → List Int × ρ

/-- What any real pseudo-random source guarantees about the primitives'
values (`random.sample` on a duplicate-free population returns `k` distinct
members; `randint` stays in range; `choice` picks a member; `shuffle`
permutes). -/
structure RNGValid {ρ : Type} (rng : RNG ρ) : Prop where
  sample_length : ∀ s l k, k ≤ l.length → ((rng.sample s l k).1).length = k
  sample_nodup : ∀ s l k, k ≤ l.length → l.Nodup → ((rng.sample s l k).1).Nodup
  sample_subset : ∀ s l k, k ≤ l.length → ∀ x ∈ (rng.sample s l k).1, x ∈ l
  randint_bounds : ∀ s a b, a ≤ b →
    a ≤ (rng.randint s a b).1 ∧ (rng.randint s a b).1 ≤ b
  choice_mem : ∀ s l, l ≠ [] → (rng.choice s l).1 ∈ l
  shuffle_perm : ∀ s l, ((rng.shuffle s l).1).Perm l

/-! ## The ten prediction strategies (`predictor.py`)

Each is a function of the eligible view, the pseudo-random source and its
state, returning `((numbers, strong_number), state)`; `none` models a Python
exception escaping the strategy (only possible on an empty eligible view). -/

/-- The `while len(selected) < 6: num = randint(1,37); if num not in
selected: append` fill loop shared by `predict_balanced`,
`predict_pattern_based` and `predict_number_pairs`. The Python loop is
unbounded (it terminates with probability 1); it is modeled with fuel
`fillFuel`, enough for every run any theorem below touches. -/
def fillDistinct (rng : RNG ρ) : Nat → List Int → ρ → List Int × ρ
  | 0, sel, s => (sel, s)
  | fuel + 1, sel, s =>
    if sel.length < 6 then
      let (num, s1) := rng.randint s 1 37
      fillDistinct rng fuel (if num ∈ sel then sel else sel ++ [num]) s1
    else (sel, s)

def fillFuel : Nat := 1000

/-- `predict_frequency_based`. -/
def predict_frequency_based (rng : RNG ρ) (V : List Row) (s : ρ) :
    Option ((List Int × Int) × ρ) :=
  let hot_numbers := get_hot_numbers V 15 100
  let p :=
    if 6 ≤ hot_numbers.length then
      let q := rng.sample s hot_numbers 6
      (pySortInt q.1, q.2)
    else
      let q := rng.sample s
        ((intRange 1 38).filter (fun i => decide (i ∉ hot_numbers))) (6 - hot_numbers.length)
      (pySortInt (hot_numbers ++ q.1), q.2)
  match maxBySnd (strong_number_frequency V (some 100)) with
  | none => none
  | some m => some ((p.1, m.1), p.2)

/-- `predict_balanced`: 3 sampled from the hot top-10 plus 3 sampled from the
cold top-10, filled to 6 if short, then `sorted(selected[:6])`. Note the
source never checks the two samples against each other, so an overlap of the
hot and cold sets can put the same value into `selected` twice. -/
def predict_balanced (rng : RNG ρ) (V : List Row) (s : ρ) :
    Option ((List Int × Int) × ρ) :=
  let hot_numbers := get_hot_numbers V 10 50
  let cold_numbers := get_cold_numbers V 10 50
  let p1 :=
    if 3 ≤ hot_numbers.length then rng.sample s hot_numbers 3 else (hot_numbers, s)
  let p2 :=
    if 3 ≤ cold_numbers.length then rng.sample p1.2 cold_numbers 3
    else (cold_numbers, p1.2)
  let p3 := fillDistinct rng fillFuel (p1.1 ++ p2.1) p2.2
  let numbers := pySortInt (p3.1.take 6)
  let top_strong :=
    (pySort (fun a b => decide (b.2 < a.2)) (strong_number_frequency V none)).take 3
  if top_strong = [] then none
  else
    let c := rng.choice p3.2 (top_strong.map (fun p => p.1))
    some ((numbers, c.1), c.2)

/-- `predict_overdue`. -/
def predict_overdue (rng : RNG ρ) (V : List Row) (s : ρ) :
    Option ((List Int × Int) × ρ) :=
  let overdue_numbers := (get_overdue_numbers V 12).map (fun p => p.1)
  let p :=
    if 6 ≤ overdue_numbers.length then
      let q := rng.sample s overdue_numbers 6
      (pySortInt q.1, q.2)
    else
      let q := rng.sample s
        ((intRange 1 38).filter (fun i => decide (i ∉ overdue_numbers))) (6 - overdue_numbers.length)
      (pySortInt ((overdue_numbers ++ q.1).take 6), q.2)
  match minBySnd (strong_number_frequency V none) with
  | none => none
  | some m => some ((p.1, m.1), p.2)

/-- The slot-filling scan of `predict_pattern_based` over the shuffled
domain: append while the even/odd budgets allow, stopping at six. -/
def patternScan (available : List Int) (even_count odd_count : Nat) : List Int :=
  (available.foldl
    (fun acc num =>
      let (nums, ec, oc) := acc
      if 6 ≤ nums.length then acc
      else if num % 2 == 0 then
        if 0 < ec then (nums ++ [num], ec - 1, oc) else acc
      else
        if 0 < oc then (nums ++ [num], ec, oc - 1) else acc)
    (([] : List Int), even_count, odd_count)).1

/-- `predict_pattern_based`. The source also draws `low_count` and computes
`recent_draws`, both unused for the numbers; the draws are kept to preserve
the random stream. -/
def predict_pattern_based (rng : RNG ρ) (V : List Row) (s : ρ) :
    Option ((List Int × Int) × ρ) :=
  let c1 := rng.choice s [2, 3, 4]
  let c2 := rng.choice c1.2 [2, 3, 4]
  let sh := rng.shuffle c2.2 (intRange 1 38)
  let scanned := patternScan sh.1 c1.1.toNat (6 - c1.1.toNat)
  let p := fillDistinct rng fillFuel scanned sh.2
  let numbers := pySortInt (p.1.take 6)
  let recent_strong := get_all_strong_numbers V (some 10)
  if recent_strong = [] then
    let r := rng.randint p.2 1 7
    some ((numbers, r.1), r.2)
  else
    let c := rng.choice p.2 recent_strong
    some ((numbers, c.1), c.2)

/-- The `abs(count - avg) <= avg * 0.3` test of
`predict_statistical_average`, in exact arithmetic: with `S` the sum of
counts and `k` their number, `|count - S/k| ≤ 0.3·(S/k)` iff
`10·|k·count - S| ≤ 3·S` (counts are nonnegative). The double-precision
computation agrees on all values this program produces. -/
def withinThirtyPct (S k count : Int) : Bool :=
  decide (10 * |k * count - S| ≤ 3 * S)

/-- `predict_statistical_average`. `none` models the `ZeroDivisionError` on
an empty frequency map. -/
def predict_statistical_average (rng : RNG ρ) (V : List Row) (s : ρ) :
    Option ((List Int × Int) × ρ) :=
  let freq := frequency_analysis V none
  if freq.length = 0 then none
  else
    let S := (freq.map (fun p => p.2)).sum
    let k := (freq.length : Int)
    let candidates := (freq.filter (fun p => withinThirtyPct S k p.2)).map (fun p => p.1)
    let p :=
      if 6 ≤ candidates.length then
        let q := rng.sample s candidates 6
        (pySortInt q.1, q.2)
      else
        let q := rng.sample s
          ((intRange 1 38).filter (fun i => decide (i ∉ candidates))) (6 - candidates.length)
        (pySortInt ((candidates ++ q.1).take 6), q.2)
    let strong_freq := strong_number_frequency V none
    if strong_freq.length = 0 then none
    else
      let Ss := (strong_freq.map (fun q => q.2)).sum
      let ks := (strong_freq.length : Int)
      let strong_candidates :=
        (strong_freq.filter (fun q => withinThirtyPct Ss ks q.2)).map (fun q => q.1)
      if strong_candidates = [] then
        let r := rng.randint p.2 1 7
        some ((p.1, r.1), r.2)
      else
        let c := rng.choice p.2 strong_candidates
        some ((p.1, c.1), c.2)

/-- `predict_recent_trends`. -/
def predict_recent_trends (rng : RNG ρ) (V : List Row) (s : ρ) :
    Option ((List Int × Int) × ρ) :=
  let recent_freq := freqList (get_all_numbers V (some 10)).flatten
  let trending :=
    ((pySort (fun a b => decide (b.2 < a.2)) recent_freq).take 12).map (fun q => q.1)
  let p :=
    if 6 ≤ trending.length then
      let q := rng.sample s trending 6
      (pySortInt q.1, q.2)
    else
      let q := rng.sample s
        ((intRange 1 38).filter (fun i => decide (i ∉ trending))) (6 - trending.length)
      (pySortInt ((trending ++ q.1).take 6), q.2)
  match maxBySnd (freqList (get_all_strong_numbers V (some 10))) with
  | some m => some ((p.1, m.1), p.2)
  | none =>
    let r := rng.randint p.2 1 7
    some ((p.1, r.1), r.2)

/-- The ordered `i < j` pairs of one draw, each as `tuple(sorted([a, b]))`. -/
def drawPairs : List Int → List (Int × Int)
  | [] => []
  | x :: xs => xs.map (fun y => if x ≤ y then (x, y) else (y, x)) ++ drawPairs xs

/-- The greedy collection of distinct numbers from the top pairs
(`predict_number_pairs`): take members of each pair in order, skipping ones
already collected, stopping as soon as six are found. -/
def collectFromPairs : List ((Int × Int) × Int) → List Int → List Int
  | [], acc => acc
  | (p, _) :: rest, acc =>
    if 6 ≤ acc.length then acc
    else
      let acc1 := if p.1 ∈ acc then acc else acc ++ [p.1]
      let acc2 := if 6 ≤ acc1.length then acc1
                  else if p.2 ∈ acc1 then acc1 else acc1 ++ [p.2]
      collectFromPairs rest acc2

/-- `predict_number_pairs`. -/
def predict_number_pairs (rng : RNG ρ) (V : List Row) (s : ρ) :
    Option ((List Int × Int) × ρ) :=
  let pairs := ((get_all_numbers V (some 100)).map drawPairs).flatten
  let top_pairs := (pySort (fun a b => decide (b.2 < a.2)) (freqList pairs)).take 10
  let collected := collectFromPairs top_pairs []
  let p := fillDistinct rng fillFuel collected s
  let numbers := pySortInt (p.1.take 6)
  match maxBySnd (strong_number_frequency V (some 100)) with
  | none => none
  | some m => some ((numbers, m.1), p.2)

/-- The bounded retry loop of `predict_sum_based` (at most 100 samples;
the last sample is kept if none hits the target band). -/
def sumAttempts (rng : RNG ρ) (lo hi : Int) : Nat → ρ → List Int × ρ
  | 0, s => ([], s)
  | fuel + 1, s =>
    let q := rng.sample s (intRange 1 38) 6
    let ns := pySortInt q.1
    if (lo ≤ ns.sum ∧ ns.sum ≤ hi) ∨ fuel = 0 then (ns, q.2)
    else sumAttempts rng lo hi fuel q.2

/-- `predict_sum_based`. `target_sum = int(avg_sum)` and
`int(target_sum * 0.1)` truncate toward zero; modeled with `Int.div`, which
agrees with the double computation on this program's value ranges. `none`
models the `ZeroDivisionError` when there are no recent draws. -/
def predict_sum_based (rng : RNG ρ) (V : List Row) (s : ρ) :
    Option ((List Int × Int) × ρ) :=
  let recent_draws := get_all_numbers V (some 100)
  if recent_draws.length = 0 then none
  else
    let sums := recent_draws.map (fun d => d.sum)
    let target_sum := Int.tdiv sums.sum (sums.length : Int)
    let tenth := Int.tdiv target_sum 10
    let min_sum := target_sum - tenth
    let max_sum := target_sum + tenth
    let p := sumAttempts rng min_sum max_sum 100 s
    match maxBySnd (strong_number_frequency V (some 100)) with
    | none => none
    | some m => some ((p.1, m.1), p.2)

set_option maxHeartbeats 1000000 in
/-- `predict_odd_even_balanced`. -/
def predict_odd_even_balanced (rng : RNG ρ) (V : List Row) (s : ρ) :
    Option ((List Int × Int) × ρ) :=
  let flat := (get_all_numbers V (some 50)).flatten
  let odd_freq := freqList (flat.filter (fun n => !(n % 2 == 0)))
  let even_freq := freqList (flat.filter (fun n => n % 2 == 0))
  let top_odds := ((pySort (fun a b => decide (b.2 < a.2)) odd_freq).take 10).map (fun p => p.1)
  let top_evens := ((pySort (fun a b => decide (b.2 < a.2)) even_freq).take 10).map (fun p => p.1)
  let p1 : List Int × ρ :=
    if 3 ≤ top_odds.length then rng.sample s top_odds 3
    else
      let odds := (intRange 1 38).filter (fun i => (i % 2 == 1) && !(top_odds.contains i))
      let q := rng.sample s odds (3 - top_odds.length)
      (top_odds ++ q.1, q.2)
  let p2 : List Int × ρ :=
    if 3 ≤ top_evens.length then
      let q := rng.sample p1.2 top_evens 3
      (p1.1 ++ q.1, q.2)
    else
      let withTop : List Int := p1.1 ++ top_evens
      let evens := (intRange 1 38).filter (fun i => (i % 2 == 0) && !(withTop.contains i))
      let q := rng.sample p1.2 evens (3 - top_evens.length)
      (withTop ++ q.1, q.2)
  let numbers := pySortInt (p2.1.take 6)
  let strong_keys := (strong_number_frequency V (some 50)).map (fun q => q.1)
  if strong_keys = [] then none
  else
    let c := rng.choice p2.2 strong_keys
    some ((numbers, c.1), c.2)

/-- `predict_spread_distribution`. Segment bounds `int(i * 37/6) + 1` and
`int((i+1) * 37/6)` are `(i*37)/6 + 1` and `((i+1)*37)/6` in exact
arithmetic — the double computation yields the same six segments
1–6, 7–12, 13–18, 19–24, 25–30, 31–37. -/
def predict_spread_distribution (rng : RNG ρ) (V : List Row) (s : ρ) :
    Option ((List Int × Int) × ρ) :=
  let p :=
    (List.range 6).foldl
      (fun (acc : List Int × ρ) i =>
        let start : Int := (((i * 37) / 6 : Nat) : Int) + 1
        let stop : Int := ((((i + 1) * 37) / 6 : Nat) : Int)
        let freq := frequency_analysis V (some 100)
        let segment_nums := freq.filter (fun kv => decide (start ≤ kv.1 ∧ kv.1 ≤ stop))
        match maxBySnd segment_nums with
        | some m => (acc.1 ++ [m.1], acc.2)
        | none =>
          let r := rng.randint acc.2 start (min stop 37)
          (acc.1 ++ [r.1], r.2))
      ([], s)
  let numbers := pySortInt p.1
  let strong_freq := strong_number_frequency V (some 100)
  match (pySort (fun a b => decide (a.2 < b.2)) strong_freq).get? (strong_freq.length / 2) with
  | none => none
  | some mid => some ((numbers, mid.1), p.2)

/-! ## Variety seeding and `generate_predictions` -/

/-- `SELECT MAX(draw_number) ...`: `none` is SQL `NULL`, which Python
formats as `None`. -/
def maxDraw? : List Int → Option Int
  | [] => none
  | x :: xs =>
    match maxDraw? xs with
    | none => some x
    | some m => some (max x m)

def optIntStr : Option Int → String
  | none => "None"
  | some v => toString v

/-- `_set_variety_seed`. `md5h` stands for
`int(hashlib.md5(seed_string.encode()).hexdigest()[:8], 16)` — any fixed
function of the seed string; every theorem holds for all of them.
With `variety == 0` the incoming generator state is discarded entirely and
replaced by `seed(seed_hash)`; with `variety >= 100` the state passes through
untouched; in between, `randint(0, variety)` consumes the incoming state to
perturb the hash. -/
def set_variety_seed (rng : RNG ρ) (md5h : String → Nat) (V : List Row)
    (variety : Nat) (strategy_name : String) (s : ρ) : ρ :=
  if 100 ≤ variety then s
  else
    let count := V.length
    let max_draw := maxDraw? (V.map (fun r => r.draw_number))
    let seed_string := toString count ++ "_" ++ optIntStr max_draw ++ "_" ++ strategy_name
    let seed_hash := md5h seed_string
    if variety = 0 then rng.seed seed_hash
    else
      let (random_component, _) := rng.randint s 0 (variety : Int)
      rng.seed (seed_hash + random_component.toNat)

/-- One generated prediction record. -/
structure Prediction where
  prediction_number : Nat
  strategy : String
  numbers : List Int
  strong_number : Int
deriving DecidableEq, Repr

/-- The fixed roster, in source order. -/
def strategies (rng : RNG ρ) :
    List (String × (List Row → ρ → Option ((List Int × Int) × ρ))) :=
  [("Frequency Based (Hot Numbers)", predict_frequency_based rng),
   ("Balanced (Hot & Cold)", predict_balanced rng),
   ("Overdue Numbers", predict_overdue rng),
   ("Pattern Based", predict_pattern_based rng),
   ("Statistical Average", predict_statistical_average rng),
   ("Recent Trends", predict_recent_trends rng),
   ("Number Pairs Analysis", predict_number_pairs rng),
   ("Sum-Based Targeting", predict_sum_based rng),
   ("Odd/Even Balanced", predict_odd_even_balanced rng),
   ("Spread Distribution", predict_spread_distribution rng)]

/-- The `for i in range(num_predictions)` loop: pick strategy `i % 10`, apply
the variety seeding, run the strategy, collect the record. `none` models an
exception escaping a strategy. -/
def genLoop (rng : RNG ρ) (md5h : String → Nat) (V : List Row) (variety : Nat) :
    Nat → Nat → ρ → Option (List Prediction × ρ)
  | 0, _, s => some ([], s)
  | k + 1, i, s =>
    let strat := (strategies rng).getD (i % (strategies rng).length)
      ("", fun _ s => some (([], 0), s))
    let s1 := set_variety_seed rng md5h V variety (strat.1 ++ "_" ++ toString i) s
    match strat.2 V s1 with
    | none => none
    | some ((ns, st), s2) =>
      match genLoop rng md5h V variety k (i + 1) s2 with
      | none => none
      | some (rest, s3) => some (⟨i + 1, strat.1, ns, st⟩ :: rest, s3)

/-- `generate_predictions(num_predictions, variety)` (count capped at 10). -/
def generate_predictions (rng : RNG ρ) (md5h : String → Nat) (V : List Row)
    (num_predictions : Nat) (variety : Nat) (s : ρ) : Option (List Prediction × ρ) :=
  genLoop rng md5h V variety (min num_predictions 10) 0 s

/-! ## `get_statistics` -/

structure Statistics where
  total_draws : Nat
  frequency_all_time : List (Int × Int)
  strong_freq : List (Int × Int)
  hot_numbers : List Int
  cold_numbers : List Int
  overdue_numbers : List Int
  most_common_number : Int × Int
  least_common_number : Int × Int
  most_common_strong : Int × Int
  least_common_strong : Int × Int
deriving DecidableEq, Repr

/-- `get_statistics`. The four `max(...)`/`min(...)` calls raise
`ValueError` when the corresponding frequency map is empty; `none` models
that — the source has no sentinel for the empty case (its MySQL twin,
`predictor_mysql.py`, guards each call with `if freq else (0, 0)`). -/
def get_statistics (V : List Row) : Option Statistics :=
  let freq := frequency_analysis V none
  let strong_freq := strong_number_frequency V none
  let hot := get_hot_numbers V 6 50
  let cold := get_cold_numbers V 6 50
  let overdue := (get_overdue_numbers V 6).map (fun p => p.1)
  let total := V.length
  match maxBySnd freq, minBySnd freq, maxBySnd strong_freq, minBySnd strong_freq with
  | some mc, some lc, some mcs, some lcs =>
    some ⟨total, freq, strong_freq, hot, cold, overdue, mc, lc, mcs, lcs⟩
  | _, _, _, _ => none

/-! ## Reconciliation (`app.py` `import_missing`, `auto_updater.py`) -/

/-- A draw as returned by the Source Feed scrapers. -/
structure Fetched where
  draw_number : Int
  date : String
  numbers : List Int
  strong_number : Int
deriving DecidableEq, Repr

/-- Outcome of the `/import_missing` endpoint (password glue omitted). -/
inductive ImportOutcome where
  /-- `fetch_latest_result()` returned nothing. -/
  | fetchFailed
  /-- `latest_online <= latest_in_db`: "Database is already up to date!". -/
  | upToDate
  /-- Imported the listed ids; the rest of the missing range
  "need manual entry". -/
  | imported (ids : List Int) (still_missing : List Int)
  /-- `add_result` returned `False`. -/
  | saveFailed
deriving DecidableEq, Repr

/-- `app.import_missing`: compares the ledger tip with the feed's newest
draw and imports only that single newest draw; every id strictly between is
reported back as still missing. -/
def import_missing (db : List Row) : Option Fetched → ImportOutcome × List Row
  | none => (.fetchFailed, db)
  | some f =>
    if f.draw_number ≤ (get_latest_draw_number db).getD 0 then (.upToDate, db)
    else
      let (ok, db1) := add_result db f.draw_number f.date f.numbers f.strong_number
      if ok then
        (.imported [f.draw_number]
          (intRange ((get_latest_draw_number db).getD 0 + 1) f.draw_number), db1)
      else (.saveFailed, db1)

/-- `auto_updater.check_and_import_all_missing`, parameterized by the two
Source Feed calls. Unlike `import_missing` it asks the Excel export for
every missing id and inserts whatever comes back, in ascending id order.
Returns `(return value, imported ids, failed ids, table)`. -/
def check_and_import_all_missing (db : List Row) (fetchLatest : Option Fetched)
    (fetchExcel : Int → Int → List Fetched) :
    Bool × List Int × List Int × List Row :=
  let latest_in_db := (get_latest_draw_number db).getD 0
  match fetchLatest with
  | none => (false, [], [], db)
  | some f =>
    if latest_in_db < f.draw_number then
      let missing_draws := fetchExcel (latest_in_db + 1) f.draw_number
      if missing_draws = [] then (false, [], [], db)
      else
        let ordered :=
          pySort (fun a b : Fetched => decide (a.draw_number < b.draw_number)) missing_draws
        let (imp, fail, db1) :=
          ordered.foldl
            (fun acc d =>
              let (imp, fail, db1) := acc
              let (ok, db2) := add_result db1 d.draw_number d.date d.numbers d.strong_number
              if ok then (imp ++ [d.draw_number], fail, db2)
              else (imp, fail ++ [d.draw_number], db2))
            ([], [], db)
        (decide (imp.length > 0), imp, fail, db1)
    else (false, [], [], db)

/-! ## A concrete pseudo-random source and concrete fixtures

`detRNG` is one deterministic instance of the `RNG` interface. Its `sample`
alternates between the first `k` and the last `k` elements of the
population, `randint` returns the lower bound, `choice` the first element,
`shuffle` the identity — all outputs Python's generator produces with
positive probability from suitable states (`detRNG_valid` below checks the
interface contract). -/

def detRNG : RNG Nat where
  seed := fun n => n
  randint := fun s a _ => (a, s + 1)
  sample := fun s l k => (if s % 2 = 0 then l.take k else l.drop (l.length - k), s + 1)
  choice := fun s l => (l.headD 0, s + 1)
  shuffle := fun s l => (l, s + 1)

/-- A five-draw eligible view in which the numbers 1..30 each occur exactly
once: the hot top-10 is `[1..10]` and the cold top-10 is
`[31..37, 1, 2, 3]`, so the hot and cold sets overlap in `{1, 2, 3}`. -/
def overlapView : List Row :=
  [⟨105, "2025-09-09", [1, 2, 3, 4, 5, 6], 1⟩,
   ⟨104, "2025-09-07", [7, 8, 9, 10, 11, 12], 2⟩,
   ⟨103, "2025-09-05", [13, 14, 15, 16, 17, 18], 3⟩,
   ⟨102, "2025-09-03", [19, 20, 21, 22, 23, 24], 4⟩,
   ⟨101, "2025-09-01", [25, 26, 27, 28, 29, 30], 5⟩]

/-- A single-draw eligible view: every number of that draw appears at index
0 of the newest-to-oldest scan. -/
def singleDrawView : List Row :=
  [⟨200, "2025-09-09", [1, 2, 3, 4, 5, 6], 3⟩]

/-- A one-draw window in which all six numbers tie with count 1 while not
being listed in ascending order. -/
def tieView : List Row :=
  [⟨300, "2025-09-09", [5, 3, 10, 20, 30, 37], 1⟩]

/-- A ledger whose stored dates are not aligned with the draw ids: the
highest id (5) carries the older date. -/
def invertedDb : List Row :=
  [⟨5, "2020-01-01", [1, 2, 3, 4, 5, 6], 1⟩,
   ⟨3, "2021-01-01", [7, 8, 9, 10, 11, 12], 2⟩]

/-- A ledger holding one record for the uniqueness scenarios. -/
def dupDb : List Row :=
  [⟨1, "2024-01-05", [1, 2, 3, 4, 5, 6], 1⟩]

/-- Reconciliation fixture: ledger tip 3875. -/
def reconDb : List Row :=
  [⟨3875, "2025-12-01", [1, 2, 3, 4, 5, 6], 1⟩]

/-- Source Feed newest draw 3878. -/
def f3878 : Fetched := ⟨3878, "2025-12-16", [2, 3, 4, 5, 6, 7], 5⟩

/-- An Excel-export response carrying all three missing draws with full
numbers. -/
def excelFeed : Int → Int → List Fetched := fun _ _ =>
  [⟨3876, "2025-12-05", [1, 2, 3, 4, 5, 6], 1⟩,
   ⟨3877, "2025-12-09", [7, 8, 9, 10, 11, 12], 2⟩,
   ⟨3878, "2025-12-16", [2, 3, 4, 5, 6, 7], 5⟩]

/-- Modelled from the spec (for comparison only; `predictor.py` has no such
helper): the index, 0 = most recent, of the most recent eligible draw
containing `n` — what §4.2 says `overdueNumbers` records per number. -/
def specMostRecentIndex (draws : List (List Int)) (n : Int) : Option Nat :=
  draws.findIdx? (fun d => decide (n ∈ d))

/-! ## General lemmas about the Python-primitive models -/

theorem detRNG_valid : RNGValid detRNG := by
  constructor
  · intro s l k hk
    simp only [detRNG]
    split
    · simpa using hk
    · simp only [List.length_drop]; omega
  · intro s l k _ hd
    simp only [detRNG]
    split
    · exact hd.sublist (List.take_sublist _ _)
    · exact hd.sublist (List.drop_sublist _ _)
  · intro s l k _ x hx
    simp only [detRNG] at hx
    split at hx
    · exact List.mem_of_mem_take hx
    · exact List.mem_of_mem_drop hx
  · intro s a b hab
    simp only [detRNG]
    exact ⟨le_refl a, hab⟩
  · intro s l hl
    simp only [detRNG]
    cases l with
    | nil => exact absurd rfl hl
    | cons x xs => simp [List.headD]
  · intro s l
    simp only [detRNG]
    exact List.Perm.refl l

theorem insEq_perm (lt : α → α → Bool) (x : α) :
    ∀ l : List α, (insEq lt x l).Perm (x :: l) := by
  intro l
  induction l with
  | nil => simp [insEq]
  | cons y ys ih =>
    by_cases h : lt x y
    · simp [insEq, h]
    · simp only [insEq, h, if_neg, Bool.false_eq_true, not_false_eq_true]
      exact (ih.cons y).trans (List.Perm.swap x y ys)

theorem pySort_perm (lt : α → α → Bool) (l : List α) : (pySort lt l).Perm l := by
  suffices h : ∀ acc : List α,
      (l.foldl (fun acc x => insEq lt x acc) acc).Perm (acc ++ l) by
    simpa using h []
  induction l with
  | nil => intro acc; simp
  | cons x xs ih =>
    intro acc
    simp only [List.foldl_cons]
    exact (ih (insEq lt x acc)).trans
      (((insEq_perm lt x acc).append_right xs).trans List.perm_middle.symm)

theorem mem_insEq {lt : α → α → Bool} {x : α} {l : List α} {y : α} :
    y ∈ insEq lt x l ↔ y = x ∨ y ∈ l := by
  rw [(insEq_perm lt x l).mem_iff, List.mem_cons]

/-- Stability of `insEq`: inserting `x` into a list whose elements all came
before `x` in the original order (`P z x`) preserves the combined invariant
"earlier in the output means not strictly later, and either strictly earlier
or originally earlier". -/
theorem insEq_pairwise_stable {lt : α → α → Bool} {P : α → α → Prop}
    (hasym : ∀ a b, lt a b = true → lt b a = false)
    (hcomp : ∀ a b c, lt a b = true → lt c b = false → lt a c = true)
    {x : α} :
    ∀ {l : List α},
      l.Pairwise (fun a b => lt b a = false ∧ (lt a b = true ∨ P a b)) →
      (∀ z ∈ l, P z x) →
      (insEq lt x l).Pairwise (fun a b => lt b a = false ∧ (lt a b = true ∨ P a b)) := by
  intro l
  induction l with
  | nil => intro _ _; simp [insEq]
  | cons y ys ih =>
    intro hl hx
    rw [List.pairwise_cons] at hl
    obtain ⟨hy, hys⟩ := hl
    by_cases h : lt x y
    · simp only [insEq, h, if_pos]
      rw [List.pairwise_cons]
      refine ⟨?_, List.Pairwise.cons hy hys⟩
      intro b hb
      rcases List.mem_cons.mp hb with rfl | hb
      · exact ⟨hasym _ _ h, Or.inl h⟩
      · have hzb := (hy b hb).1
        have hxb : lt x b = true := hcomp x y b h hzb
        exact ⟨hasym _ _ hxb, Or.inl hxb⟩
    · have h' : lt x y = false := by
        cases hxy : lt x y
        · rfl
        · exact absurd hxy h
      simp only [insEq, h, if_neg, Bool.false_eq_true, not_false_eq_true]
      rw [List.pairwise_cons]
      constructor
      · intro b hb
        rcases mem_insEq.mp hb with rfl | hb
        · exact ⟨h', Or.inr (hx y (List.mem_cons_self y ys))⟩
        · exact hy b hb
      · exact ih hys (fun z hz => hx z (List.mem_cons_of_mem _ hz))

/-- Stability of `pySort`: the output is pairwise ordered by the comparison,
and elements comparing equal keep the original pairwise relation `P`. -/
theorem pySort_pairwise_stable {lt : α → α → Bool} {P : α → α → Prop}
    (hasym : ∀ a b, lt a b = true → lt b a = false)
    (hcomp : ∀ a b c, lt a b = true → lt c b = false → lt a c = true)
    {l : List α} (hl : l.Pairwise P) :
    (pySort lt l).Pairwise (fun a b => lt b a = false ∧ (lt a b = true ∨ P a b)) := by
  suffices h : ∀ (acc : List α),
      acc.Pairwise (fun a b => lt b a = false ∧ (lt a b = true ∨ P a b)) →
      (∀ z ∈ acc, ∀ y ∈ l, P z y) →
      l.Pairwise P →
      (l.foldl (fun acc x => insEq lt x acc) acc).Pairwise
        (fun a b => lt b a = false ∧ (lt a b = true ∨ P a b)) by
    exact h [] (by simp) (by simp) hl
  clear hl
  induction l with
  | nil => intro acc hacc _ _; simpa using hacc
  | cons x xs ih =>
    intro acc hacc hcross hl
    rw [List.pairwise_cons] at hl
    obtain ⟨hxxs, hxs⟩ := hl
    simp only [List.foldl_cons]
    refine ih (insEq lt x acc) ?_ ?_ hxs
    · exact insEq_pairwise_stable hasym hcomp hacc
        (fun z hz => hcross z hz x (List.mem_cons_self x xs))
    · intro z hz y hy
      rcases mem_insEq.mp hz with rfl | hz
      · exact hxxs y hy
      · exact hcross z hz y (List.mem_cons_of_mem _ hy)

/-- Plain sortedness of `pySort` (the comparison-only half of stability). -/
theorem pySort_pairwise {lt : α → α → Bool}
    (hasym : ∀ a b, lt a b = true → lt b a = false)
    (hcomp : ∀ a b c, lt a b = true → lt c b = false → lt a c = true)
    (l : List α) :
    (pySort lt l).Pairwise (fun a b => lt b a = false) := by
  have htriv : l.Pairwise (fun _ _ => True) := by
    induction l with
    | nil => simp
    | cons x xs ih => simp [List.pairwise_cons, ih]
  exact (pySort_pairwise_stable hasym hcomp htriv).imp (fun h => h.1)

/-- `sorted` on integers yields a nondecreasing list. -/
theorem pySortInt_pairwise (l : List Int) :
    (pySortInt l).Pairwise (fun a b : Int => a ≤ b) := by
  have h := @pySort_pairwise Int (fun a b : Int => decide (a < b))
    (by intro a b hab; simp only [decide_eq_true_eq] at hab; simp; omega)
    (by intro a b c hab hcb; simp only [decide_eq_true_eq] at hab
        simp only [decide_eq_false_iff_not] at hcb; simp; omega) l
  exact h.imp (by intro a b hfalse; simp only [decide_eq_false_iff_not] at hfalse; omega)

theorem mem_firstOccsAcc [DecidableEq α] (x : α) :
    ∀ (l seen : List α), x ∈ firstOccsAcc seen l ↔ x ∈ l ∧ x ∉ seen := by
  intro l
  induction l with
  | nil => intro seen; simp [firstOccsAcc]
  | cons y ys ih =>
    intro seen
    by_cases hy : y ∈ seen
    · simp only [firstOccsAcc, hy, if_pos, ih, List.mem_cons]
      constructor
      · rintro ⟨h1, h2⟩; exact ⟨Or.inr h1, h2⟩
      · rintro ⟨h1 | h1, h2⟩
        · exact absurd (h1 ▸ hy) h2
        · exact ⟨h1, h2⟩
    · simp only [firstOccsAcc, hy, if_neg, not_false_eq_true, List.mem_cons, ih,
        List.mem_cons, not_or]
      constructor
      · rintro (rfl | ⟨h1, h2, h3⟩)
        · exact ⟨Or.inl rfl, hy⟩
        · exact ⟨Or.inr h1, h3⟩
      · rintro ⟨rfl | h1, h2⟩
        · exact Or.inl rfl
        · by_cases hxy : x = y
          · exact Or.inl hxy
          · exact Or.inr ⟨h1, hxy, h2⟩

theorem mem_firstOccs [DecidableEq α] (x : α) (l : List α) :
    x ∈ firstOccs l ↔ x ∈ l := by
  simp [firstOccs, mem_firstOccsAcc]

theorem nodup_firstOccsAcc [DecidableEq α] :
    ∀ (l seen : List α), (firstOccsAcc seen l).Nodup := by
  intro l
  induction l with
  | nil => intro seen; simp [firstOccsAcc]
  | cons y ys ih =>
    intro seen
    by_cases hy : y ∈ seen
    · simpa only [firstOccsAcc, hy, if_pos] using ih seen
    · simp only [firstOccsAcc, hy, if_neg, not_false_eq_true, List.nodup_cons]
      refine ⟨?_, ih (y :: seen)⟩
      intro hmem
      exact ((mem_firstOccsAcc y ys (y :: seen)).mp hmem).2 (List.mem_cons_self y seen)

theorem nodup_firstOccs [DecidableEq α] (l : List α) : (firstOccs l).Nodup :=
  nodup_firstOccsAcc l []

/-- Position of the first occurrence of `x` in `l`. -/
def posIn [DecidableEq α] : List α → α → Nat
  | [], _ => 0
  | y :: ys, x => if y = x then 0 else posIn ys x + 1

theorem pairwise_posIn [DecidableEq α] :
    ∀ (l : List α), l.Nodup → l.Pairwise (fun a b => posIn l a < posIn l b) := by
  intro l
  induction l with
  | nil => intro _; simp
  | cons x xs ih =>
    intro hnd
    rw [List.nodup_cons] at hnd
    obtain ⟨hx, hxs⟩ := hnd
    rw [List.pairwise_cons]
    constructor
    · intro b hb
      have hbx : ¬ x = b := fun h => hx (h ▸ hb)
      have h1 : posIn (x :: xs) x = 0 := by simp [posIn]
      have h2 : posIn (x :: xs) b = posIn xs b + 1 := by simp [posIn, hbx]
      omega
    · refine (ih hxs).imp_of_mem ?_
      intro a b ha hb hab
      have hax : ¬ x = a := fun h => hx (h ▸ ha)
      have hbx : ¬ x = b := fun h => hx (h ▸ hb)
      have h1 : posIn (x :: xs) a = posIn xs a + 1 := by simp [posIn, hax]
      have h2 : posIn (x :: xs) b = posIn xs b + 1 := by simp [posIn, hbx]
      omega

theorem freqList_pairwise_posIn [DecidableEq α] (l : List α) :
    (freqList l).Pairwise (fun p q => posIn (firstOccs l) p.1 < posIn (firstOccs l) q.1) := by
  unfold freqList
  rw [List.pairwise_map]
  exact pairwise_posIn (firstOccs l) (nodup_firstOccs l)

theorem freqList_snd [DecidableEq α] {l : List α} {p : α × Int}
    (hp : p ∈ freqList l) : p.2 = countOcc l p.1 := by
  unfold freqList at hp
  obtain ⟨n, _, rfl⟩ := List.mem_map.mp hp
  rfl

theorem freqList_fst_mem [DecidableEq α] {l : List α} {p : α × Int}
    (hp : p ∈ freqList l) : p.1 ∈ l := by
  unfold freqList at hp
  obtain ⟨n, hn, rfl⟩ := List.mem_map.mp hp
  exact (mem_firstOccs n l).mp hn

theorem mem_freqList_of_mem [DecidableEq α] {l : List α} {x : α} (hx : x ∈ l) :
    (x, countOcc l x) ∈ freqList l := by
  unfold freqList
  exact List.mem_map.mpr ⟨x, (mem_firstOccs x l).mpr hx, rfl⟩

theorem mem_intRangeAux (x : Int) :
    ∀ (n : Nat) (a : Int), x ∈ intRangeAux a n ↔ a ≤ x ∧ x < a + n := by
  intro n
  induction n with
  | zero =>
    intro a
    simp only [intRangeAux, List.not_mem_nil, false_iff]
    omega
  | succ m ih =>
    intro a
    simp only [intRangeAux, List.mem_cons, ih (a + 1)]
    omega

theorem mem_intRange (a b x : Int) : x ∈ intRange a b ↔ a ≤ x ∧ x < b := by
  unfold intRange
  rw [mem_intRangeAux]
  omega

theorem find?_append_left {p : α → Bool} {l₁ : List α} {r : α}
    (h : l₁.find? p = some r) : ∀ l₂ : List α, (l₁ ++ l₂).find? p = some r := by
  induction l₁ with
  | nil => simp [List.find?] at h
  | cons x xs ih =>
    intro l₂
    by_cases hx : p x
    · rw [List.find?_cons_of_pos _ hx] at h
      simpa [List.find?_cons_of_pos _ hx] using h
    · rw [List.find?_cons_of_neg _ (by simpa using hx)] at h
      simpa [List.find?_cons_of_neg _ (by simpa using hx)] using ih h l₂

theorem listCharLt_irrefl : ∀ l : List Char, listCharLt l l = false := by
  intro l
  induction l with
  | nil => rfl
  | cons x xs ih => simp [listCharLt, ih]

theorem listCharLt_asymm :
    ∀ a b : List Char, listCharLt a b = true → listCharLt b a = false := by
  intro a
  induction a with
  | nil =>
    intro b h
    cases b with
    | nil => simp [listCharLt] at h
    | cons y ys => simp [listCharLt]
  | cons x xs ih =>
    intro b h
    cases b with
    | nil => simp [listCharLt] at h
    | cons y ys =>
      simp only [listCharLt] at h ⊢
      by_cases h1 : x.toNat < y.toNat
      · rw [if_neg (by omega), if_pos h1]
      · rw [if_neg h1] at h
        by_cases h2 : y.toNat < x.toNat
        · rw [if_pos h2] at h
          simp at h
        · rw [if_neg h2] at h
          rw [if_neg h2, if_neg h1]
          exact ih ys h

theorem listCharLt_false_trans :
    ∀ a b c : List Char, listCharLt a b = false → listCharLt b c = false →
      listCharLt a c = false := by
  intro a
  induction a with
  | nil =>
    intro b c hab hbc
    cases b with
    | nil => exact hbc
    | cons y ys => simp [listCharLt] at hab
  | cons x xs ih =>
    intro b c hab hbc
    cases b with
    | nil =>
      cases c with
      | nil => simp [listCharLt]
      | cons z zs => simp [listCharLt] at hbc
    | cons y ys =>
      cases c with
      | nil => simp [listCharLt]
      | cons z zs =>
        simp only [listCharLt] at hab hbc ⊢
        by_cases h1 : x.toNat < y.toNat
        · rw [if_pos h1] at hab; simp at hab
        · by_cases h2 : y.toNat < z.toNat
          · rw [if_pos h2] at hbc; simp at hbc
          · by_cases h3 : x.toNat < z.toNat
            · omega
            · rw [if_neg h3]
              by_cases h4 : z.toNat < x.toNat
              · rw [if_pos h4]
              · rw [if_neg h4]
                have hxy : ¬ y.toNat < x.toNat := by omega
                have hyz : ¬ z.toNat < y.toNat := by omega
                rw [if_neg h1, if_neg hxy] at hab
                rw [if_neg h2, if_neg hyz] at hbc
                exact ih ys zs hab hbc

theorem strLt_irrefl (a : String) : strLt a a = false :=
  listCharLt_irrefl a.data

theorem strLt_asymm {a b : String} (h : strLt a b = true) : strLt b a = false :=
  listCharLt_asymm a.data b.data h

theorem strLt_false_trans {a b c : String} (hab : strLt a b = false)
    (hbc : strLt b c = false) : strLt a c = false :=
  listCharLt_false_trans a.data b.data c.data hab hbc

/-! ## Ledger lemmas -/

/-- `add_result` succeeds exactly on a valid, fresh record, appending it. -/
theorem add_result_success {db : List Row} {dn : Int} {dd : String}
    {ns : List Int} {st : Int}
    (hlen : ns.length = 6)
    (hrange : ∀ n ∈ ns, 1 ≤ n ∧ n ≤ 37)
    (hst : 1 ≤ st ∧ st ≤ 7)
    (hfresh : ∀ r ∈ db, r.draw_number ≠ dn) :
    add_result db dn dd ns st = (true, db ++ [⟨dn, normDate dd, ns, st⟩]) := by
  unfold add_result
  rw [if_neg (by omega), if_neg, if_neg (by exact fun h => by omega), if_neg]
  · intro hany
    obtain ⟨r, hr, hbeq⟩ := List.any_eq_true.mp hany
    exact hfresh r hr (by simpa using hbeq)
  · intro hnall
    apply hnall
    rw [List.all_eq_true]
    intro n hn
    simpa using hrange n hn

theorem latestRow_eq_none {db : List Row} (h : latestRow db = none) : db = [] := by
  cases db with
  | nil => rfl
  | cons r rs =>
    exfalso
    simp only [latestRow] at h
    cases hrs : latestRow rs with
    | none => rw [hrs] at h; simp at h
    | some m =>
      simp only [hrs] at h
      by_cases hlt : strLt r.draw_date m.draw_date = true
      · rw [if_pos hlt] at h; simp at h
      · rw [if_neg hlt] at h; simp at h

/-- The row `ORDER BY draw_date DESC LIMIT 1` returns is in the table and no
stored date is strictly above its date. -/
theorem latestRow_spec :
    ∀ (db : List Row) (r : Row), latestRow db = some r →
      r ∈ db ∧ ∀ q ∈ db, strLt r.draw_date q.draw_date = false := by
  intro db
  induction db with
  | nil => intro r h; simp [latestRow] at h
  | cons x xs ih =>
    intro r h
    simp only [latestRow] at h
    cases hxs : latestRow xs with
    | none =>
      rw [hxs] at h
      have hx : x = r := by simpa using h
      subst hx
      have hnil : xs = [] := latestRow_eq_none hxs
      subst hnil
      refine ⟨List.mem_cons_self x [], ?_⟩
      intro q hq
      rcases List.mem_cons.mp hq with rfl | hq
      · exact strLt_irrefl _
      · simp at hq
    | some m =>
      simp only [hxs] at h
      obtain ⟨hm, hmax⟩ := ih m hxs
      by_cases hlt : strLt x.draw_date m.draw_date = true
      · rw [if_pos hlt] at h
        have : m = r := by simpa using h
        subst this
        refine ⟨List.mem_cons_of_mem x hm, ?_⟩
        intro q hq
        rcases List.mem_cons.mp hq with rfl | hq
        · exact strLt_asymm hlt
        · exact hmax q hq
      · rw [if_neg hlt] at h
        have : x = r := by simpa using h
        subst this
        refine ⟨List.mem_cons_self x xs, ?_⟩
        intro q hq
        have hxm : strLt x.draw_date m.draw_date = false := by
          cases hv : strLt x.draw_date m.draw_date
          · rfl
          · exact absurd hv hlt
        rcases List.mem_cons.mp hq with rfl | hq
        · exact strLt_irrefl _
        · exact strLt_false_trans hxm (hmax q hq)

/-- Records already stored keep their identity across a CSV import (the
`INSERT OR IGNORE` path only ever appends fresh ids). -/
theorem csvFold_preserves (p : Row → Bool) (r : Row) :
    ∀ (rows : List (List String)) (acc : Nat × Nat × List Row),
      acc.2.2.find? p = some r →
      ((rows.foldl csvStep acc).2.2).find? p = some r := by
  intro rows
  induction rows with
  | nil => intro acc h; exact h
  | cons row rest ih =>
    intro acc h
    simp only [List.foldl_cons]
    apply ih
    obtain ⟨i, s, db⟩ := acc
    simp only at h
    unfold csvStep
    cases hp : parseRow row with
    | none => exact h
    | some v =>
      obtain ⟨dn, dd, ns, st⟩ := v
      simp only
      split
      · exact h
      · exact find?_append_left h _

/-- `add_result` fails, leaving the table unchanged, whenever the id is
already present (regardless of the payload). -/
theorem add_result_duplicate {db : List Row} (dn : Int) (dd : String)
    (ns : List Int) (st : Int)
    (hdup : ∃ r ∈ db, r.draw_number = dn) :
    add_result db dn dd ns st = (false, db) := by
  unfold add_result
  split
  · rfl
  · split
    · rfl
    · split
      · rfl
      · rw [if_pos]
        obtain ⟨r, hr, hdn⟩ := hdup
        exact List.any_eq_true.mpr ⟨r, hr, by simpa using hdn⟩

theorem sumAttempts_sorted (rng : RNG ρ) (lo hi : Int) :
    ∀ (fuel : Nat) (s : ρ),
      ((sumAttempts rng lo hi fuel s).1).Pairwise (fun a b : Int => a ≤ b) := by
  intro fuel
  induction fuel with
  | zero => intro s; simp [sumAttempts]
  | succ f ih =>
    intro s
    simp only [sumAttempts]
    split
    · exact pySortInt_pairwise _
    · exact ih _

/-- With `variety = 0`, `_set_variety_seed` replaces the generator state by
a reseed that depends only on the eligible data and the strategy label. -/
theorem set_variety_seed_zero (rng : RNG ρ) (md5h : String → Nat) (V : List Row)
    (nm : String) (s : ρ) :
    set_variety_seed rng md5h V 0 nm s
      = rng.seed (md5h (toString V.length ++ "_" ++
          optIntStr (maxDraw? (V.map (fun r => r.draw_number))) ++ "_" ++ nm)) := by
  simp [set_variety_seed]

/-- At `variety = 0` the generation loop's result does not depend on the
incoming generator state (for at least one iteration, the first reseed
overwrites it). -/
theorem genLoop_state_independent (rng : RNG ρ) (md5h : String → Nat)
    (V : List Row) (k i : Nat) (s₁ s₂ : ρ) (hk : k ≠ 0) :
    genLoop rng md5h V 0 k i s₁ = genLoop rng md5h V 0 k i s₂ := by
  cases k with
  | zero => exact absurd rfl hk
  | succ m => simp only [genLoop, set_variety_seed_zero]

/-! ## Every strategy returns its numbers sorted ascending -/

theorem predict_frequency_based_sorted (rng : RNG ρ) (V : List Row) (s : ρ)
    {ns : List Int} {st : Int} {s' : ρ}
    (h : predict_frequency_based rng V s = some ((ns, st), s')) :
    ns.Pairwise (fun a b : Int => a ≤ b) := by
  unfold predict_frequency_based at h
  try dsimp only at h
  split at h
  · exact Option.noConfusion h
  · simp only [Option.some.injEq, Prod.mk.injEq] at h
    obtain ⟨⟨h1, h2⟩, h3⟩ := h
    rw [← h1]
    split <;> exact pySortInt_pairwise _

theorem predict_balanced_sorted (rng : RNG ρ) (V : List Row) (s : ρ)
    {ns : List Int} {st : Int} {s' : ρ}
    (h : predict_balanced rng V s = some ((ns, st), s')) :
    ns.Pairwise (fun a b : Int => a ≤ b) := by
  unfold predict_balanced at h
  try dsimp only at h
  split at h
  · exact Option.noConfusion h
  · simp only [Option.some.injEq, Prod.mk.injEq] at h
    obtain ⟨⟨h1, h2⟩, h3⟩ := h
    rw [← h1]
    exact pySortInt_pairwise _

theorem predict_overdue_sorted (rng : RNG ρ) (V : List Row) (s : ρ)
    {ns : List Int} {st : Int} {s' : ρ}
    (h : predict_overdue rng V s = some ((ns, st), s')) :
    ns.Pairwise (fun a b : Int => a ≤ b) := by
  unfold predict_overdue at h
  try dsimp only at h
  split at h
  · exact Option.noConfusion h
  · simp only [Option.some.injEq, Prod.mk.injEq] at h
    obtain ⟨⟨h1, h2⟩, h3⟩ := h
    rw [← h1]
    split <;> exact pySortInt_pairwise _

theorem predict_pattern_based_sorted (rng : RNG ρ) (V : List Row) (s : ρ)
    {ns : List Int} {st : Int} {s' : ρ}
    (h : predict_pattern_based rng V s = some ((ns, st), s')) :
    ns.Pairwise (fun a b : Int => a ≤ b) := by
  unfold predict_pattern_based at h
  try dsimp only at h
  split at h <;>
    · simp only [Option.some.injEq, Prod.mk.injEq] at h
      obtain ⟨⟨h1, h2⟩, h3⟩ := h
      rw [← h1]
      exact pySortInt_pairwise _

theorem predict_statistical_average_sorted (rng : RNG ρ) (V : List Row) (s : ρ)
    {ns : List Int} {st : Int} {s' : ρ}
    (h : predict_statistical_average rng V s = some ((ns, st), s')) :
    ns.Pairwise (fun a b : Int => a ≤ b) := by
  unfold predict_statistical_average at h
  try dsimp only at h
  split at h
  · exact Option.noConfusion h
  · split at h
    · exact Option.noConfusion h
    · split at h <;>
        · simp only [Option.some.injEq, Prod.mk.injEq] at h
          obtain ⟨⟨h1, h2⟩, h3⟩ := h
          rw [← h1]
          split <;> exact pySortInt_pairwise _

theorem predict_recent_trends_sorted (rng : RNG ρ) (V : List Row) (s : ρ)
    {ns : List Int} {st : Int} {s' : ρ}
    (h : predict_recent_trends rng V s = some ((ns, st), s')) :
    ns.Pairwise (fun a b : Int => a ≤ b) := by
  unfold predict_recent_trends at h
  try dsimp only at h
  split at h <;>
    · simp only [Option.some.injEq, Prod.mk.injEq] at h
      obtain ⟨⟨h1, h2⟩, h3⟩ := h
      rw [← h1]
      split <;> exact pySortInt_pairwise _

theorem predict_number_pairs_sorted (rng : RNG ρ) (V : List Row) (s : ρ)
    {ns : List Int} {st : Int} {s' : ρ}
    (h : predict_number_pairs rng V s = some ((ns, st), s')) :
    ns.Pairwise (fun a b : Int => a ≤ b) := by
  unfold predict_number_pairs at h
  try dsimp only at h
  split at h
  · exact Option.noConfusion h
  · simp only [Option.some.injEq, Prod.mk.injEq] at h
    obtain ⟨⟨h1, h2⟩, h3⟩ := h
    rw [← h1]
    exact pySortInt_pairwise _

theorem predict_sum_based_sorted (rng : RNG ρ) (V : List Row) (s : ρ)
    {ns : List Int} {st : Int} {s' : ρ}
    (h : predict_sum_based rng V s = some ((ns, st), s')) :
    ns.Pairwise (fun a b : Int => a ≤ b) := by
  unfold predict_sum_based at h
  try dsimp only at h
  split at h
  · exact Option.noConfusion h
  · split at h
    · exact Option.noConfusion h
    · simp only [Option.some.injEq, Prod.mk.injEq] at h
      obtain ⟨⟨h1, h2⟩, h3⟩ := h
      rw [← h1]
      exact sumAttempts_sorted rng _ _ 100 s

theorem predict_odd_even_balanced_sorted (rng : RNG ρ) (V : List Row) (s : ρ)
    {ns : List Int} {st : Int} {s' : ρ}
    (h : predict_odd_even_balanced rng V s = some ((ns, st), s')) :
    ns.Pairwise (fun a b : Int => a ≤ b) := by
  unfold predict_odd_even_balanced at h
  try dsimp only at h
  split at h
  · exact Option.noConfusion h
  · simp only [Option.some.injEq, Prod.mk.injEq] at h
    obtain ⟨⟨h1, h2⟩, h3⟩ := h
    rw [← h1]
    exact pySortInt_pairwise _

theorem predict_spread_distribution_sorted (rng : RNG ρ) (V : List Row) (s : ρ)
    {ns : List Int} {st : Int} {s' : ρ}
    (h : predict_spread_distribution rng V s = some ((ns, st), s')) :
    ns.Pairwise (fun a b : Int => a ≤ b) := by
  unfold predict_spread_distribution at h
  try dsimp only at h
  split at h
  · exact Option.noConfusion h
  · simp only [Option.some.injEq, Prod.mk.injEq] at h
    obtain ⟨⟨h1, h2⟩, h3⟩ := h
    rw [← h1]
    exact pySortInt_pairwise _

/-- Every strategy in the roster returns its numbers sorted. -/
theorem strategies_sorted (rng : RNG ρ) :
    ∀ p ∈ strategies rng, ∀ (V : List Row) (s : ρ) (ns : List Int) (st : Int) (s' : ρ),
      p.2 V s = some ((ns, st), s') → ns.Pairwise (fun a b : Int => a ≤ b) := by
  intro p hp
  simp only [strategies, List.mem_cons, List.not_mem_nil, or_false] at hp
  rcases hp with rfl | rfl | rfl | rfl | rfl | rfl | rfl | rfl | rfl | rfl
  · exact fun V s ns st s' h => predict_frequency_based_sorted rng V s h
  · exact fun V s ns st s' h => predict_balanced_sorted rng V s h
  · exact fun V s ns st s' h => predict_overdue_sorted rng V s h
  · exact fun V s ns st s' h => predict_pattern_based_sorted rng V s h
  · exact fun V s ns st s' h => predict_statistical_average_sorted rng V s h
  · exact fun V s ns st s' h => predict_recent_trends_sorted rng V s h
  · exact fun V s ns st s' h => predict_number_pairs_sorted rng V s h
  · exact fun V s ns st s' h => predict_sum_based_sorted rng V s h
  · exact fun V s ns st s' h => predict_odd_even_balanced_sorted rng V s h
  · exact fun V s ns st s' h => predict_spread_distribution_sorted rng V s h

/-- The strategy the loop picks for any index (or the out-of-range default)
returns sorted numbers. -/
theorem stratAt_sorted (rng : RNG ρ) (j : Nat) (V : List Row) (s : ρ)
    (ns : List Int) (st : Int) (s' : ρ)
    (h : ((strategies rng).getD j ("", fun _ s => some (([], 0), s))).2 V s
      = some ((ns, st), s')) :
    ns.Pairwise (fun a b : Int => a ≤ b) := by
  cases hq : (strategies rng).get? j with
  | none =>
    have hd : (strategies rng).getD j ("", fun _ s => some (([], 0), s))
        = ("", fun _ s => some (([], 0), s)) := by
      rw [List.getD_eq_get?, hq]
      rfl
    rw [hd] at h
    simp only [Option.some.injEq, Prod.mk.injEq] at h
    obtain ⟨⟨h1, _⟩, _⟩ := h
    rw [← h1]
    exact List.Pairwise.nil
  | some q =>
    have hmem := List.get?_mem hq
    have hd : (strategies rng).getD j ("", fun _ s => some (([], 0), s)) = q := by
      rw [List.getD_eq_get?, hq]
      rfl
    rw [hd] at h
    exact strategies_sorted rng q hmem V s ns st s' h

/-- Every record the generation loop emits carries a sorted numbers list. -/
theorem genLoop_sorted (rng : RNG ρ) (md5h : String → Nat) (V : List Row)
    (variety : Nat) :
    ∀ (k i : Nat) (s : ρ) (preds : List Prediction) (s' : ρ),
      genLoop rng md5h V variety k i s = some (preds, s') →
      ∀ p ∈ preds, p.numbers.Pairwise (fun a b : Int => a ≤ b) := by
  intro k
  induction k with
  | zero =>
    intro i s preds s' h p hp
    simp only [genLoop, Option.some.injEq, Prod.mk.injEq] at h
    obtain ⟨h1, _⟩ := h
    rw [← h1] at hp
    simp at hp
  | succ m ih =>
    intro i s preds s' h p hp
    simp only [genLoop] at h
    split at h
    · exact Option.noConfusion h
    · rename_i v1 hs1
      split at h
      · exact Option.noConfusion h
      · rename_i v2 hs2
        simp only [Option.some.injEq, Prod.mk.injEq] at h
        obtain ⟨h1, _⟩ := h
        rw [← h1] at hp
        rcases List.mem_cons.mp hp with rfl | hp
        · exact stratAt_sorted rng _ V _ _ _ _ hs1
        · exact ih (i + 1) _ _ _ hs2 p hp

/-! ## The claims -/

/-- C1, counterexample: a record whose six main numbers contain a duplicate
value (1 appears twice) is *accepted* by `add_result` and stored — the claim
that such a record "is always rejected with an InvalidRecord outcome" is
false on the code, which validates only the ranges. -/
theorem claim_c1_counterexample :
    add_result [] 1 "2024-01-05" [1, 1, 2, 3, 4, 5] 1
      = (true, [⟨1, "2024-01-05", [1, 1, 2, 3, 4, 5], 1⟩]) := by decide

/-- C1 (amended): `add_result` rejects, leaving the stored rows unchanged,
any record with a wrong number count, a main number outside [1,37] or a
strong number outside [1,7]; it does not check pairwise distinctness. The
CSV import path performs no value validation at all: any row that parses as
integers is stored as-is when its id is fresh. -/
theorem claim_c1 :
    (∀ (db : List Row) (dn : Int) (dd : String) (ns : List Int) (st : Int),
        (ns.length ≠ 6 ∨ (∃ n ∈ ns, n < 1 ∨ 37 < n) ∨ st < 1 ∨ 7 < st) →
        add_result db dn dd ns st = (false, db)) ∧
    (∀ (db : List Row) (row : List String) (dn : Int) (dd : String)
        (ns : List Int) (st : Int),
        parseRow row = some (dn, dd, ns, st) →
        (∀ r ∈ db, r.draw_number ≠ dn) →
        import_from_csv db [row] = (1, 0, db ++ [⟨dn, dd, ns, st⟩])) := by
  constructor
  · intro db dn dd ns st h
    unfold add_result
    split
    · rfl
    · rename_i h1
      split
      · rfl
      · rename_i h2
        split
        · rfl
        · rename_i h3
          exfalso
          rcases h with h | ⟨n, hn, hr⟩ | h | h
          · exact h1 h
          · have hall := List.all_eq_true.mp (not_not.mp h2) n hn
            rw [decide_eq_true_eq] at hall
            omega
          · have := not_not.mp h3
            omega
          · have := not_not.mp h3
            omega
  · intro db row dn dd ns st hp hf
    unfold import_from_csv csvStep
    simp only [List.foldl_cons, List.foldl_nil, hp]
    rw [if_neg]
    intro hany
    obtain ⟨r, hr, hbeq⟩ := List.any_eq_true.mp hany
    exact hf r hr (by simpa using hbeq)

/-- C1, witness: a strong number 0 is rejected with the table unchanged,
while the CSV path stores a main number 99 without complaint. -/
theorem claim_c1_witness :
    add_result dupDb 2 "2024-01-08" [0, 2, 3, 4, 5, 6] 1 = (false, dupDb) ∧
    import_from_csv ([] : List Row)
        [["10", "2024-01-05", "99", "1", "2", "3", "4", "5", "9"]]
      = (1, 0, [⟨10, "2024-01-05", [99, 1, 2, 3, 4, 5], 9⟩]) :=
  ⟨claim_c1.1 dupDb 2 "2024-01-08" [0, 2, 3, 4, 5, 6] 1
      (Or.inr (Or.inl ⟨0, by decide, by omega⟩)),
   claim_c1.2 [] ["10", "2024-01-05", "99", "1", "2", "3", "4", "5", "9"]
      10 "2024-01-05" [99, 1, 2, 3, 4, 5] 9 (by decide) (by simp)⟩

/-- C2, counterexample: re-inserting an existing `draw_id` through
`add_result` returns plain `False` with the table unchanged — the *same*
outcome as an invalid record (strong number 0 here), not a distinguished
informational `Duplicate` outcome as the claim states for this path. -/
theorem claim_c2_counterexample :
    add_result dupDb 1 "2024-01-08" [7, 8, 9, 10, 11, 12] 2 = (false, dupDb) ∧
    add_result dupDb 2 "2024-01-08" [0, 8, 9, 10, 11, 12] 2 = (false, dupDb) := by
  decide

/-- C2 (amended): only the first insert of a given `draw_id` succeeds; every
later insert of that id is a no-op that never alters the stored record. The
CSV path skips it silently (`INSERT OR IGNORE`, counted as skipped); the
`add_result` path reports plain failure (`False`), indistinguishable from a
validation error. -/
theorem claim_c2 :
    (∀ (db : List Row) (dn : Int) (dd : String) (ns : List Int) (st : Int),
        (∃ r ∈ db, r.draw_number = dn) →
        add_result db dn dd ns st = (false, db)) ∧
    (∀ (db : List Row) (rows : List (List String)) (dn : Int) (r : Row),
        db.find? (fun q => q.draw_number == dn) = some r →
        ((import_from_csv db rows).2.2).find? (fun q => q.draw_number == dn) = some r) ∧
    (∀ (db : List Row) (row : List String) (dn : Int) (dd : String)
        (ns : List Int) (st : Int),
        parseRow row = some (dn, dd, ns, st) →
        (∃ r ∈ db, r.draw_number = dn) →
        import_from_csv db [row] = (0, 1, db)) := by
  refine ⟨?_, ?_, ?_⟩
  · intro db dn dd ns st h
    exact add_result_duplicate dn dd ns st h
  · intro db rows dn r h
    exact csvFold_preserves _ r rows (0, 0, db) h
  · intro db row dn dd ns st hp hdup
    unfold import_from_csv csvStep
    simp only [List.foldl_cons, List.foldl_nil, hp]
    rw [if_pos]
    obtain ⟨r, hr, hdn⟩ := hdup
    exact List.any_eq_true.mpr ⟨r, hr, by simpa using hdn⟩

/-- C2, witness: the three amended facts at a concrete one-row ledger. -/
theorem claim_c2_witness :
    add_result dupDb 1 "2024-02-02" [7, 8, 9, 10, 11, 12] 3 = (false, dupDb) ∧
    ((import_from_csv dupDb [["1", "2024-02-02", "7", "8", "9", "10", "11", "12", "3"]]).2.2).find?
        (fun q => q.draw_number == 1) = some ⟨1, "2024-01-05", [1, 2, 3, 4, 5, 6], 1⟩ ∧
    import_from_csv dupDb [["1", "2024-02-02", "7", "8", "9", "10", "11", "12", "3"]]
      = (0, 1, dupDb) :=
  ⟨claim_c2.1 dupDb 1 "2024-02-02" [7, 8, 9, 10, 11, 12] 3
      ⟨⟨1, "2024-01-05", [1, 2, 3, 4, 5, 6], 1⟩, by decide, rfl⟩,
   claim_c2.2.1 dupDb [["1", "2024-02-02", "7", "8", "9", "10", "11", "12", "3"]] 1
      ⟨1, "2024-01-05", [1, 2, 3, 4, 5, 6], 1⟩ (by decide),
   claim_c2.2.2 dupDb ["1", "2024-02-02", "7", "8", "9", "10", "11", "12", "3"]
      1 "2024-02-02" [7, 8, 9, 10, 11, 12] 3 (by decide)
      ⟨⟨1, "2024-01-05", [1, 2, 3, 4, 5, 6], 1⟩, by decide, rfl⟩⟩

/-- C3, counterexample: with an id/date inversion in the ledger (id 5 dated
2020, id 3 dated 2021), `get_latest_draw_number` returns 3 — the draw number
of the most recent *date* — not the highest id 5 the claim requires. -/
theorem claim_c3_counterexample :
    get_latest_draw_number invertedDb = some 3 ∧
    maxDraw? (invertedDb.map (fun r => r.draw_number)) = some 5 ∧
    get_latest_draw_number invertedDb ≠ some 5 := by decide

/-- C3 (amended): `get_latest_draw_number` returns `None` exactly on the
empty ledger, and otherwise the `draw_number` of a stored row whose
`draw_date` is maximal in the bytewise string order (`ORDER BY draw_date
DESC LIMIT 1`) — selection is by date, not by id. -/
theorem claim_c3 : ∀ db : List Row,
    (db = [] → get_latest_draw_number db = none) ∧
    (∀ v, get_latest_draw_number db = some v →
      ∃ r ∈ db, r.draw_number = v ∧
        ∀ q ∈ db, strLt r.draw_date q.draw_date = false) := by
  intro db
  constructor
  · rintro rfl
    rfl
  · intro v hv
    unfold get_latest_draw_number at hv
    cases hlr : latestRow db with
    | none => rw [hlr] at hv; simp at hv
    | some r =>
      rw [hlr] at hv
      obtain ⟨hmem, hmax⟩ := latestRow_spec db r hlr
      refine ⟨r, hmem, ?_, hmax⟩
      have : r.draw_number = v := by simpa using hv
      exact this

/-- C3, witness: applying the amended theorem at the inverted ledger — the
returned row is the 2021-dated one and no stored date exceeds 2021-01-01. -/
theorem claim_c3_witness :
    get_latest_draw_number ([] : List Row) = none ∧
    strLt "2021-01-01" "2020-01-01" = false := by
  constructor
  · exact (claim_c3 []).1 rfl
  · obtain ⟨r, hr, hv, hmax⟩ := (claim_c3 invertedDb).2 3 (by decide)
    have hdate : r.draw_date = "2021-01-01" := by
      rcases List.mem_cons.mp hr with rfl | hr
      · simp [invertedDb] at hv
      · rcases List.mem_cons.mp hr with rfl | hr
        · rfl
        · simp at hr
    have := hmax ⟨5, "2020-01-01", [1, 2, 3, 4, 5, 6], 1⟩ (by decide)
    rwa [hdate] at this

/-- C4, counterexample: the auto-updater's reconciliation path imports the
ids strictly between the ledger tip and the newest draw. With tip 3875 and
newest 3878, `check_and_import_all_missing` imports 3876, 3877 *and* 3878
from the Excel feed — the claim that only the newest is imported and
everything strictly between stays `stillMissing` fails on this path. -/
theorem claim_c4_counterexample :
    (check_and_import_all_missing reconDb (some f3878) excelFeed).2.1
      = [3876, 3877, 3878] ∧
    (3876 : Int) ∈ (check_and_import_all_missing reconDb (some f3878) excelFeed).2.1 ∧
    get_latest_draw_number reconDb = some 3875 := by decide

/-- C4 (amended): the `/import_missing` endpoint behaves as the claim says:
with ledger tip `L` and feed newest `S > L` (valid and fresh), it imports
exactly `[S]` and reports exactly `{L+1, …, S−1}` as still missing. The
hourly auto-updater (`check_and_import_all_missing`), however, fetches every
missing id from the Excel export and imports whatever it returns (see the
counterexample). -/
theorem claim_c4 : ∀ (db : List Row) (f : Fetched),
    (get_latest_draw_number db).getD 0 < f.draw_number →
    f.numbers.length = 6 →
    (∀ n ∈ f.numbers, 1 ≤ n ∧ n ≤ 37) →
    (1 ≤ f.strong_number ∧ f.strong_number ≤ 7) →
    (∀ r ∈ db, r.draw_number ≠ f.draw_number) →
    import_missing db (some f) =
      (ImportOutcome.imported [f.draw_number]
        (intRange ((get_latest_draw_number db).getD 0 + 1) f.draw_number),
       db ++ [⟨f.draw_number, normDate f.date, f.numbers, f.strong_number⟩]) ∧
    (∀ x : Int,
      x ∈ intRange ((get_latest_draw_number db).getD 0 + 1) f.draw_number ↔
        (get_latest_draw_number db).getD 0 < x ∧ x < f.draw_number) := by
  intro db f h1 h2 h3 h4 h5
  constructor
  · simp only [import_missing]
    rw [if_neg (by omega), add_result_success h2 h3 h4 h5]
    rfl
  · intro x
    rw [mem_intRange]
    omega

/-- C4, witness: the spec's worked example — tip 3875, newest 3878: exactly
3878 imported, `{3876, 3877}` still missing. -/
theorem claim_c4_witness :
    import_missing reconDb (some f3878)
      = (ImportOutcome.imported [3878] [3876, 3877],
         reconDb ++ [⟨3878, "2025-12-16", [2, 3, 4, 5, 6, 7], 5⟩]) ∧
    (3877 : Int) ∈ intRange ((get_latest_draw_number reconDb).getD 0 + 1) 3878 := by
  have h := claim_c4 reconDb f3878 (by decide) (by decide)
    (by decide) (by decide) (by decide)
  constructor
  · exact h.1.trans (by decide)
  · exact (h.2 3877).mpr (by decide)

/-- C5: the reproducibility contract at `variety = 0`. Before every strategy
invocation the pseudo-random source is reseeded with the data-derived hash,
discarding the incoming generator state — so the predictions (strategies,
numbers, strong numbers, in order) are a function of the ledger alone: two
calls from arbitrary different generator states return identical outputs.
Holds for every pseudo-random implementation `rng` and every hash `md5h`. -/
theorem claim_c5 (ρ : Type) (rng : RNG ρ) (md5h : String → Nat) (db : List Row)
    (cutoff : String) (n : Nat) (s₁ s₂ : ρ) :
    (generate_predictions rng md5h (eligibleView cutoff db) n 0 s₁).map Prod.fst
      = (generate_predictions rng md5h (eligibleView cutoff db) n 0 s₂).map Prod.fst := by
  unfold generate_predictions
  rcases Nat.eq_zero_or_pos (min n 10) with h | h
  · rw [h]
    rfl
  · rw [genLoop_state_independent rng md5h _ _ 0 s₁ s₂ (by omega)]

/-- C10 (implicit claim): every prediction returned by
`generate_predictions` — for any pseudo-random implementation, hash, view,
count, variety and starting state — carries its 6 numbers sorted in
ascending (nondecreasing) order: every strategy passes its numbers through
`sorted(...)` before returning. -/
theorem claim_c10 (ρ : Type) (rng : RNG ρ) (md5h : String → Nat) (V : List Row)
    (n variety : Nat) (s : ρ) (preds : List Prediction) (s' : ρ)
    (h : generate_predictions rng md5h V n variety s = some (preds, s')) :
    ∀ p ∈ preds, p.numbers.Pairwise (fun a b : Int => a ≤ b) :=
  genLoop_sorted rng md5h V variety (min n 10) 0 s preds s' h

set_option maxRecDepth 10000 in
/-- C10, witness: the first prediction of a concrete five-prediction run on
`overlapView` has sorted numbers, obtained by applying `claim_c10` to the
fully evaluated run. -/
theorem claim_c10_witness :
    ([10, 11, 12, 13, 14, 15] : List Int).Pairwise (fun a b : Int => a ≤ b) :=
  claim_c10 Nat detRNG (fun str => str.length) overlapView 5 0 0
    [⟨1, "Frequency Based (Hot Numbers)", [10, 11, 12, 13, 14, 15], 1⟩,
     ⟨2, "Balanced (Hot & Cold)", [8, 9, 10, 31, 32, 33], 1⟩,
     ⟨3, "Overdue Numbers", [31, 32, 33, 34, 35, 36], 1⟩,
     ⟨4, "Pattern Based", [1, 2, 3, 4, 5, 7], 1⟩,
     ⟨5, "Statistical Average", [25, 26, 27, 28, 29, 30], 1⟩] 29
    (by decide)
    ⟨1, "Frequency Based (Hot Numbers)", [10, 11, 12, 13, 14, 15], 1⟩
    (by decide)

/-- C6: the claim says a number appearing in the most recent eligible draw
(index 0) gets overdue index 0, and only never-appearing numbers get the
total draw count. On a single-draw view, number 1 appears at index 0
(`specMostRecentIndex` = 0) yet the code assigns it the total draw count 1 —
the `last_appearance[num] == 0` sentinel cannot distinguish "seen at index
0" from "never seen", contradicting the code's own
"Set numbers never appeared to max" comment. -/
theorem claim_c6 :
    specMostRecentIndex (singleDrawView.map (fun r => r.nums)) 1 = some 0 ∧
    (get_overdue_numbers singleDrawView 37).lookup 1 = some 1 ∧
    singleDrawView.length = 1 := by decide

/-- C7: on an empty eligible view `frequency_analysis` is indeed the empty
map, but `get_statistics` does *not* return a `(0, 0)` sentinel — its
`max()` call raises `ValueError` (modeled by `none`). The MySQL twin
(`predictor_mysql.py`) implements exactly the claimed guard, which is what
this file's `get_statistics` lacks. -/
theorem claim_c7 :
    frequency_analysis ([] : List Row) none = [] ∧
    get_statistics ([] : List Row) = none := by decide

/-- C8, counterexample: in a window where 5 and 3 tie with count 1,
`get_hot_numbers` returns `[5, 3]` — first-occurrence order in the
flattened window — not the ascending order `[3, 5]` the claim requires for
ties. -/
theorem claim_c8_counterexample :
    get_hot_numbers tieView 2 50 = [5, 3] ∧
    countOcc ((get_all_numbers tieView (some 50)).flatten) 3
      = countOcc ((get_all_numbers tieView (some 50)).flatten) 5 ∧
    get_hot_numbers tieView 2 50 ≠ [3, 5] := by decide

/-- C8 (amended): `get_hot_numbers` returns `topN` numbers of the window
with the highest counts, deterministically for a fixed view: every returned
number occurs in the window; counts are nonincreasing along the result with
ties ordered by first occurrence in the flattened newest-to-oldest window
(not by ascending value); and no omitted window number has a higher count
than any returned one. -/
theorem claim_c8 : ∀ (V : List Row) (top_n recent_draws : Nat),
    (∀ a ∈ get_hot_numbers V top_n recent_draws,
        a ∈ (get_all_numbers V (some recent_draws)).flatten) ∧
    (get_hot_numbers V top_n recent_draws).Pairwise
      (fun a b =>
        countOcc ((get_all_numbers V (some recent_draws)).flatten) b
          ≤ countOcc ((get_all_numbers V (some recent_draws)).flatten) a ∧
        (countOcc ((get_all_numbers V (some recent_draws)).flatten) b
            < countOcc ((get_all_numbers V (some recent_draws)).flatten) a ∨
          posIn (firstOccs ((get_all_numbers V (some recent_draws)).flatten)) a
            < posIn (firstOccs ((get_all_numbers V (some recent_draws)).flatten)) b)) ∧
    (∀ b ∈ (get_all_numbers V (some recent_draws)).flatten,
        b ∉ get_hot_numbers V top_n recent_draws →
        ∀ a ∈ get_hot_numbers V top_n recent_draws,
          countOcc ((get_all_numbers V (some recent_draws)).flatten) b
            ≤ countOcc ((get_all_numbers V (some recent_draws)).flatten) a) := by
  intro V top_n recent_draws
  set flat := (get_all_numbers V (some recent_draws)).flatten with hflat
  set L := freqList flat with hL
  set lt := fun a b : Int × Int => decide (b.2 < a.2) with hlt
  have hasym : ∀ a b : Int × Int, lt a b = true → lt b a = false := by
    intro a b hab
    simp only [hlt, decide_eq_true_eq] at hab
    simp only [hlt, decide_eq_false_iff_not]
    omega
  have hcomp : ∀ a b c : Int × Int, lt a b = true → lt c b = false → lt a c = true := by
    intro a b c hab hcb
    simp only [hlt, decide_eq_true_eq] at hab
    simp only [hlt, decide_eq_false_iff_not] at hcb
    simp only [hlt, decide_eq_true_eq]
    omega
  have hsnd : ∀ p ∈ L, p.2 = countOcc flat p.1 := fun p hp => freqList_snd hp
  have hstable := @pySort_pairwise_stable (Int × Int) lt
    (fun p q : Int × Int =>
      posIn (firstOccs flat) p.1 < posIn (firstOccs flat) q.1)
    hasym hcomp (freqList flat) (freqList_pairwise_posIn flat)
  have hperm := pySort_perm lt L
  have hhs : get_hot_numbers V top_n recent_draws
      = ((pySort lt L).take top_n).map (fun p => p.1) := rfl
  have hmem_take_L : ∀ p ∈ (pySort lt L).take top_n, p ∈ L := by
    intro p hp
    exact hperm.mem_iff.mp ((List.take_sublist _ _).mem hp)
  refine ⟨?_, ?_, ?_⟩
  · intro a ha
    rw [hhs] at ha
    obtain ⟨p, hp, rfl⟩ := List.mem_map.mp ha
    exact freqList_fst_mem (hmem_take_L p hp)
  · rw [hhs]
    rw [List.pairwise_map]
    have htake := List.Pairwise.sublist (List.take_sublist top_n (pySort lt L)) hstable
    refine htake.imp_of_mem ?_
    intro p q hp hq hpq
    obtain ⟨h1, h2⟩ := hpq
    have hps := hsnd p (hmem_take_L p hp)
    have hqs := hsnd q (hmem_take_L q hq)
    constructor
    · simp only [hlt, decide_eq_false_iff_not] at h1
      rw [← hps, ← hqs]
      omega
    · rcases h2 with h2 | h2
      · left
        simp only [hlt, decide_eq_true_eq] at h2
        rw [← hps, ← hqs]
        omega
      · right
        exact h2
  · intro b hb hbn a ha
    have hQ : (pySort lt L).Pairwise (fun p q => lt q p = false) :=
      hstable.imp (fun h => h.1)
    have hsplit : ((pySort lt L).take top_n ++ (pySort lt L).drop top_n).Pairwise
        (fun p q : Int × Int => lt q p = false) := by
      rw [List.take_append_drop]
      exact hQ
    have hcross := (List.pairwise_append.mp hsplit).2.2
    have hpbL : ((b, countOcc flat b) : Int × Int) ∈ L := mem_freqList_of_mem hb
    have hpbF : ((b, countOcc flat b) : Int × Int) ∈ pySort lt L := hperm.mem_iff.mpr hpbL
    have hpbD : ((b, countOcc flat b) : Int × Int) ∈ (pySort lt L).drop top_n := by
      rw [← List.take_append_drop top_n (pySort lt L)] at hpbF
      rcases List.mem_append.mp hpbF with h | h
      · exfalso
        apply hbn
        rw [hhs]
        exact List.mem_map.mpr ⟨(b, countOcc flat b), h, rfl⟩
      · exact h
    rw [hhs] at ha
    obtain ⟨pa, hpa, rfl⟩ := List.mem_map.mp ha
    have hq := hcross pa hpa _ hpbD
    simp only [hlt, decide_eq_false_iff_not] at hq
    have hpas := hsnd pa (hmem_take_L pa hpa)
    rw [← hpas]
    omega

/-- C8, witness: on `tieView` with `topN = 2`, the omitted window number 20
does not out-count the kept number 5. -/
theorem claim_c8_witness :
    countOcc ((get_all_numbers tieView (some 50)).flatten) 20
      ≤ countOcc ((get_all_numbers tieView (some 50)).flatten) 5 :=
  (claim_c8 tieView 2 50).2.2 20 (by decide) (by decide) 5 (by decide)

/-- C9: the Balanced strategy does not always return six pairwise-distinct
numbers. On `overlapView` the hot and cold top-10 overlap in {1,2,3}; with
the valid pseudo-random source `detRNG` (see `detRNG_valid`) the two
`random.sample` calls pick {1,2,3} from both sides, and the returned numbers
are `[1,1,2,2,3,3]` — each value repeated. -/
theorem claim_c9 :
    predict_balanced detRNG overlapView 0 = some (([1, 1, 2, 2, 3, 3], 1), 3) ∧
    (1 : Int) ∈ get_hot_numbers overlapView 10 50 ∧
    (1 : Int) ∈ get_cold_numbers overlapView 10 50 ∧
    ¬ ([1, 1, 2, 2, 3, 3] : List Int).Nodup := by decide

end Lotto
